import Mathlib

/-!
# RollAndPitchFromMPU6050: the sensor acquisition pipeline of `Game.cpp`

A shallow embedding of the MPU6050 part of `Game.cpp`:

* the timer tick handler created in `Game::Initialize` (read, reassemble, normalise, store),
* `Game::Update` (roll and pitch from the stored sample),
* `Game::WriteByteToI2C` and `Game::InitMPU6050` (discovery and register configuration),
* the continuation of `Game::Initialize` that creates the periodic timer.

Conventions of the embedding.

* A `byte` is a `Fin 256`; the 14-byte read buffer `m_ReadBuf` is a function `Fin 14 → Byte`.
* `int` and `short` values are integers; the narrowing conversion to `short` is the explicit
  reduction `castShort` into `[-32768, 32767]` modulo `2^16`.
* A `float` value is the rational number it represents.  The conversion of an integer to
  `float` and the `float` division round the exact result to the nearest binary32 value,
  ties to even (`roundBinary32`); magnitudes of `2^128` and more, which binary32 turns into
  infinities, do not arise from 16-bit operands and are outside the model.
* A bus transaction that throws is an `Except.error`; `try { .. } catch (...) { }` is
  `tryCatch`.
-/

namespace MPU6050

/-! ## Data model -/

/-- One `byte` of a `Platform::Array<byte>`. -/
abbrev Byte := Fin 256

/-- The 14-byte read buffer `m_ReadBuf` (`unsigned char readBufChar[14]`). -/
abbrev Frame := Fin 14 → Byte

/-- The record `m_AccelData` with its three `float` members. -/
structure AccelData where
  accelX : ℚ
  accelY : ℚ
  accelZ : ℚ
  deriving DecidableEq, Repr

/-- The conversion of an `int` to `short`: reduction modulo `2^16` into `[-32768, 32767]`. -/
def castShort (n : Int) : Int := (n + 32768) % 65536 - 32768

/-- The `int` sum formed by the two statements that reassemble one raw component,
`short r = (short)(hi * 256); r += lo;`: the narrowed product plus the low byte, before the
compound assignment narrows it back to `short`. -/
def reassembleSum (hi lo : Byte) : Int :=
  castShort ((hi.val : Int) * 256) + (lo.val : Int)

/-- The value of the `short` local after `short r = (short)(hi * 256); r += lo;`. -/
def reassemble (hi lo : Byte) : Int :=
  castShort (reassembleSum hi lo)

/-- The six `short` locals computed by the timer tick from `m_ReadBuf`. -/
structure RawValues where
  AccelerationRawX : Int
  AccelerationRawY : Int
  AccelerationRawZ : Int
  GyroRawX : Int
  GyroRawY : Int
  GyroRawZ : Int
  deriving DecidableEq, Repr

/-- Step "2) calculatoins" of the tick, first half: the raw components (bytes 6 and 7, the
temperature, are not read). -/
def rawValues (m_ReadBuf : Frame) : RawValues :=
  { AccelerationRawX := reassemble (m_ReadBuf 0) (m_ReadBuf 1)
    AccelerationRawY := reassemble (m_ReadBuf 2) (m_ReadBuf 3)
    AccelerationRawZ := reassemble (m_ReadBuf 4) (m_ReadBuf 5)
    GyroRawX := reassemble (m_ReadBuf 8) (m_ReadBuf 9)
    GyroRawY := reassemble (m_ReadBuf 10) (m_ReadBuf 11)
    GyroRawZ := reassemble (m_ReadBuf 12) (m_ReadBuf 13) }

/-- The constant `const int ACCEL_RES = 32767`. -/
def ACCEL_RES : Int := 32767

/-- The constant `const int ACCEL_DYN_RANGE_G = 2`. -/
def ACCEL_DYN_RANGE_G : Int := 2

/-- The constant `const int UNITS_PER_G = ACCEL_RES / ACCEL_DYN_RANGE_G`, an `int` division
(truncating). -/
def UNITS_PER_G : Int := Int.tdiv ACCEL_RES ACCEL_DYN_RANGE_G

/-- Rounding of a rational to the nearest integer, ties to the even one. -/
def roundHalfEven (q : ℚ) : Int :=
  let f : Int := ⌊q⌋
  let r : ℚ := q - f
  if r < 1 / 2 then f
  else if 1 / 2 < r then f + 1
  else if f % 2 = 0 then f else f + 1

/-- The binary32 value nearest to a rational, ties to even: 24 significant bits, so the
spacing is `2^(e-23)` for `2^e ≤ |q| < 2^(e+1)`, and `2^(-149)` below `2^(-126)`
(subnormals). -/
def roundBinary32 (q : ℚ) : ℚ :=
  if q = 0 then 0
  else
    let e : Int := max (Int.log 2 |q|) (-126)
    let ulp : ℚ := (2 : ℚ) ^ (e - 23)
    (roundHalfEven (q / ulp) : ℚ) * ulp

/-- The conversion of an `int` or a `short` to `float`, as in `(float)AccelerationRawX` and
in the promotion of `UNITS_PER_G` for the division. -/
def intToFloat (n : Int) : ℚ := roundBinary32 (n : ℚ)

/-- The division of two `float` values. -/
def divFloat (a b : ℚ) : ℚ := roundBinary32 (a / b)

/-- The statement `accel = (float)raw / UNITS_PER_G`. -/
def normalize (raw : Int) : ℚ := divFloat (intToFloat raw) (intToFloat UNITS_PER_G)

/-- Step "2) calculatoins" of the tick as a whole: the three `float` locals `accelX`,
`accelY`, `accelZ` computed from the buffer. -/
def decode (m_ReadBuf : Frame) : AccelData :=
  let raw := rawValues m_ReadBuf
  { accelX := normalize raw.AccelerationRawX
    accelY := normalize raw.AccelerationRawY
    accelZ := normalize raw.AccelerationRawZ }

/-- The unsigned 16-bit value of a big-endian byte pair. -/
def bigEndian (hi lo : Byte) : Int := (hi.val : Int) * 256 + (lo.val : Int)

/-- The 16-bit two's-complement reading of an unsigned 16-bit value. -/
def twosComplement (u : Int) : Int := if u < 32768 then u else u - 65536

/-- The high byte of the big-endian two's-complement encoding of a signed 16-bit value. -/
def encodeHi (x : Int) : Byte := Fin.ofNat ((x % 65536) / 256).toNat

/-- The low byte of the big-endian two's-complement encoding of a signed 16-bit value. -/
def encodeLo (x : Int) : Byte := Fin.ofNat ((x % 65536) % 256).toNat

/-! ## The shared state and its two users -/

/-- What a bus transaction throws (`catch (...)` catches every exception). -/
structure BusException where
  hresult : Int
  deriving DecidableEq, Repr

/-- An open `I2cDevice^`: the device id it was opened from and the slave address of its
connection settings. -/
structure I2cDevice where
  DeviceId : String
  SlaveAddress : Nat
  deriving DecidableEq, Repr

/-- A created `ThreadPoolTimer^` with its period (`TimeSpan::Duration`, in 100 ns units). -/
structure ThreadPoolTimer where
  Duration : Nat
  deriving DecidableEq, Repr

/-- The values of `DirectX::SimpleMath::Matrix` that occur, kept symbolic: the library
function `Matrix::CreateFromYawPitchRoll` is represented by its arguments. -/
inductive Matrix where
  | Identity
  | CreateFromYawPitchRoll (yaw pitch roll : ℚ)
  deriving DecidableEq, Repr

/-- The members of `Game` that the acquisition pipeline and its consumer touch.  The read
buffer `m_ReadBuf` is not kept: its contents are only used between `WriteRead` and the
reassembly inside one tick, where it is the frame the transaction delivered. -/
structure Game where
  m_AccelData : AccelData
  m_AccelerometerReads : Nat
  m_I2cMPU6050Device : Option I2cDevice
  m_PeriodicTimer : Option ThreadPoolTimer
  m_ReadRegAddr : Option (List Byte)
  m_AngleRoll : ℚ
  m_AnglePitch : ℚ
  m_world : Matrix
  deriving DecidableEq, Repr

/-- Modelled from the spec: the initial value of the members that `Game::Game` does not list
(their declarations are in `Game.h`, not part of the sources): the sample is the "defined
zero/identity default", the angles are zero, the object handles are null.  The counter is
initialised by `m_AccelerometerReads(0)`; its declared type is in `Game.h` too and it is taken
as the "monotonically increasing success counter" of the spec, a natural number.  This is
the constructor `Game::Game`. -/
def Game.ctor : Game :=
  { m_AccelData := { accelX := 0, accelY := 0, accelZ := 0 }
    m_AccelerometerReads := 0
    m_I2cMPU6050Device := none
    m_PeriodicTimer := none
    m_ReadRegAddr := none
    m_AngleRoll := 0
    m_AnglePitch := 0
    m_world := Matrix.Identity }

/-- The body of the `TimerElapsedHandler` lambda created in `Game::Initialize`.  The
argument `WriteRead` is the outcome of `m_I2cMPU6050Device->WriteRead(m_ReadRegAddr, m_ReadBuf)`:
the buffer it filled, or the exception it threw.  The result is `Except.error` when an
exception leaves the handler. -/
def Game.TimerElapsed (s : Game) (WriteRead : Except BusException Frame) :
    Except BusException Game :=
  if s.m_I2cMPU6050Device.isSome then
    tryCatch
      (do
        -- 1) read MPU6050 sensor data
        let m_ReadBuf ← WriteRead
        -- 2) calculations
        let sample := decode m_ReadBuf
        -- 3) store values to render data
        let s1 := { s with m_AccelData := { s.m_AccelData with accelX := sample.accelX } }
        let s2 := { s1 with m_AccelData := { s1.m_AccelData with accelY := sample.accelY } }
        let s3 := { s2 with m_AccelData := { s2.m_AccelData with accelZ := sample.accelZ } }
        pure { s3 with m_AccelerometerReads := s3.m_AccelerometerReads + 1 })
      (fun _ => pure s)
  else
    pure s

/-- A run of the timer: the handler is invoked once per outcome, in order; an exception
that leaves a handler ends the run. -/
def Game.runTicks (s : Game) : List (Except BusException Frame) → Except BusException Game
  | [] => pure s
  | r :: rs => do
    let s1 ← Game.TimerElapsed s r
    Game.runTicks s1 rs

/-- The method `Game::Update`; `elapsedTime` is the (unused) local of that name. -/
def Game.Update (s : Game) (elapsedTime : ℚ) : Game :=
  let _unused := elapsedTime
  -- use MPU6050 accelerometer data in render
  let s1 := { s with m_AngleRoll := s.m_AccelData.accelY }
  let s2 := { s1 with m_AnglePitch := -s1.m_AccelData.accelX }
  -- calculate model rotation matrix
  { s2 with m_world := Matrix.CreateFromYawPitchRoll 0 s2.m_AnglePitch s2.m_AngleRoll }

/-- The number of successful outcomes in a list of tick outcomes. -/
def successCount : List (Except BusException Frame) → Nat
  | [] => 0
  | .ok _ :: rs => successCount rs + 1
  | .error _ :: rs => successCount rs

/-- The last successfully read frame in a list of tick outcomes, if any. -/
def lastFrame : List (Except BusException Frame) → Option Frame
  | [] => none
  | r :: rs =>
    match lastFrame rs with
    | some b => some b
    | none =>
      match r with
      | .ok b => some b
      | .error _ => none

/-! ## Discovery and configuration -/

/-- One entry of the `DeviceInformationCollection` returned by `FindAllAsync`. -/
structure DeviceInformation where
  Id : String
  deriving DecidableEq, Repr

/-- The argument `I2cConnectionSettings(I2C_ADDRESS)` of `FromIdAsync`. -/
structure I2cConnectionSettings where
  SlaveAddress : Nat
  deriving DecidableEq, Repr

/-- What the platform answers during start-up: the enumerated devices, the handle (or null)
that `I2cDevice::FromIdAsync` delivers, and for the `k`-th `Write` transaction on the bus
(counted from 0) whether it completes (`true`) or throws (`false`). -/
structure Platform where
  devices : List DeviceInformation
  FromIdAsync : String → I2cConnectionSettings → Option I2cDevice
  writeOk : Nat → Bool

/-- The observable actions of start-up, in the order they happen. -/
inductive Effect where
  | Write (wb : List Byte)
  | Sleep (ms : Nat)
  deriving DecidableEq, Repr

/-- The buffers of the `Write` transactions of a trace, in order. -/
def writesOf : List Effect → List (List Byte)
  | [] => []
  | .Write wb :: es => wb :: writesOf es
  | .Sleep _ :: es => writesOf es

/-- The call `_I2cMPU6050Device->Write(wb)`: the transaction is recorded in the trace
whether it completes or throws; its outcome is the one the platform gives to the next
transaction. -/
def I2cDevice.Write (p : Platform) (trace : List Effect) (_dev : I2cDevice) (wb : List Byte) :
    Except BusException Unit × List Effect :=
  let k := (writesOf trace).length
  (if p.writeOk k then .ok () else .error { hresult := -1 }, trace ++ [Effect.Write wb])

/-- The method `Game::WriteByteToI2C`. -/
def Game.WriteByteToI2C (p : Platform) (trace : List Effect) (_I2cMPU6050Device : I2cDevice)
    (_regAddr _data : Byte) : Bool × List Effect :=
  let writeBuf : List Byte := [_regAddr, _data]
  let wb := writeBuf
  match I2cDevice.Write p trace _I2cMPU6050Device wb with
  | (.ok _, t) => (true, t)
  | (.error _, t) => (false, t)

/-- The constant `const unsigned int I2C_ADDRESS = 0x68`. -/
def I2C_ADDRESS : Nat := 0x68

/-- The method `Game::InitMPU6050`: the value of the task, the state it leaves and the
trace of its bus writes and sleeps. -/
def Game.InitMPU6050 (p : Platform) (s : Game) : Bool × Game × List Effect :=
  match p.devices with
  | [] => (false, s, [])
  | d0 :: _ =>
    let HTU21D_settings : I2cConnectionSettings := { SlaveAddress := I2C_ADDRESS }
    match p.FromIdAsync d0.Id HTU21D_settings with
    | some i2cDevice =>
      -- save active I2C device
      let s1 := { s with m_I2cMPU6050Device := some i2cDevice }
      -- init accelerometer
      match s1.m_I2cMPU6050Device with
      | some dev =>
        let (ok1, t1) := Game.WriteByteToI2C p [] dev 0x6B 0x80
        if !ok1 then (false, s1, t1) else
        let t1s := t1 ++ [Effect.Sleep 100]
        let (ok2, t2) := Game.WriteByteToI2C p t1s dev 0x6B 0x2
        if !ok2 then (false, s1, t2) else
        let (ok3, t3) := Game.WriteByteToI2C p t2 dev 0x1A 4
        if !ok3 then (false, s1, t3) else
        let (ok4, t4) := Game.WriteByteToI2C p t3 dev 0x1C 0
        if !ok4 then (false, s1, t4) else
        (true, s1, t4)
      | none => (false, s1, [])
    | none =>
      -- no I2C device found
      (false, { s with m_I2cMPU6050Device := none }, [])

/-- The MPU6050 part of `Game::Initialize`: `InitMPU6050` followed by its continuation,
which returns at once when the device was not found and creates the periodic timer
otherwise. -/
def Game.Initialize (p : Platform) (s : Game) : Game × List Effect :=
  let (_i2cDeviceFound, s1, trace) := Game.InitMPU6050 p s
  if !_i2cDeviceFound then
    (s1, trace)
  else
    let timerPeriod : Nat := 40 * 10000
    let regAddrBuf : List Byte := [0x3B]
    let s2 := { s1 with m_ReadRegAddr := some regAddrBuf }
    ({ s2 with m_PeriodicTimer := some { Duration := timerPeriod } }, trace)

/-- What can happen after `Initialize`: the thread pool fires the periodic timer (with the
outcome of that tick's `WriteRead`), or the game loop runs `Update`. -/
inductive Event where
  | timerFired (WriteRead : Except BusException Frame)
  | update (elapsedTime : ℚ)

/-- One event applied to the state.  The handler only runs for a timer that
`CreatePeriodicTimer` has created. -/
def Game.step (s : Game) : Event → Except BusException Game
  | .timerFired r =>
    match s.m_PeriodicTimer with
    | some _ => Game.TimerElapsed s r
    | none => pure s
  | .update elapsedTime => pure (Game.Update s elapsedTime)

/-- A sequence of events applied in order. -/
def Game.run (s : Game) : List Event → Except BusException Game
  | [] => pure s
  | e :: es => do
    let s1 ← Game.step s e
    Game.run s1 es

/-- The configuration writes of the spec, in order. -/
def configWrites : List (List Byte) :=
  [[0x6B, 0x80], [0x6B, 0x02], [0x1A, 0x04], [0x1C, 0x00]]

/-- The configuration sequence of the spec with its settle delay, in order. -/
def configSequence : List Effect :=
  [.Write [0x6B, 0x80], .Sleep 100, .Write [0x6B, 0x02], .Write [0x1A, 0x04],
   .Write [0x1C, 0x00]]

/-- The initial part of a list of writes up to and including the first one that fails,
where `ok k` tells whether the write at position `k` succeeds; the whole list if none
fails. -/
def uptoFirstFailure (ok : Nat → Bool) : Nat → List (List Byte) → List (List Byte)
  | _, [] => []
  | k, w :: ws => if ok k then w :: uptoFirstFailure ok (k + 1) ws else [w]

/-- A platform answer of `FromIdAsync` that opens every device it is asked for. -/
def openAlways (id : String) (settings : I2cConnectionSettings) : Option I2cDevice :=
  some { DeviceId := id, SlaveAddress := settings.SlaveAddress }

/-- A platform with one enumerated device that opens, on which the first two writes
complete and every later write throws. -/
def platformThirdWriteFails : Platform :=
  { devices := [{ Id := "I2C1" }], FromIdAsync := openAlways, writeOk := fun k => decide (k < 2) }

/-- A platform with one enumerated device that opens, on which every write throws. -/
def platformEveryWriteFails : Platform :=
  { devices := [{ Id := "I2C1" }], FromIdAsync := openAlways, writeOk := fun _ => false }

/-- A platform on which the enumeration finds no device. -/
def platformNoDevice : Platform :=
  { devices := [], FromIdAsync := openAlways, writeOk := fun _ => true }

/-! ## Statement-level interleaving of the tick and `Update`

The timer handler runs on a thread-pool thread and `Update` on the game loop; the source
has no lock and no atomic around `m_AccelData`.  The two are interleaved here statement by
statement, each assignment taken as one indivisible step. -/

/-- The assignments of a successful tick to shared state, in source order
(`m_AccelData.accelX = accelX; m_AccelData.accelY = accelY; m_AccelData.accelZ = accelZ;
m_AccelerometerReads += 1;`), for the locals `accelX, accelY, accelZ` held in `sample`. -/
def tickStores (sample : AccelData) : List (Game → Game) :=
  [ fun s => { s with m_AccelData := { s.m_AccelData with accelX := sample.accelX } },
    fun s => { s with m_AccelData := { s.m_AccelData with accelY := sample.accelY } },
    fun s => { s with m_AccelData := { s.m_AccelData with accelZ := sample.accelZ } },
    fun s => { s with m_AccelerometerReads := s.m_AccelerometerReads + 1 } ]

/-- The assignments of `Game::Update`, in source order (`m_AngleRoll = m_AccelData.accelY;
m_AnglePitch = -m_AccelData.accelX; m_world = Matrix::CreateFromYawPitchRoll(..);`). -/
def updateStatements : List (Game → Game) :=
  [ fun s => { s with m_AngleRoll := s.m_AccelData.accelY },
    fun s => { s with m_AnglePitch := -s.m_AccelData.accelX },
    fun s => { s with m_world := Matrix.CreateFromYawPitchRoll 0 s.m_AnglePitch s.m_AngleRoll } ]

/-- The two threads: the thread-pool thread of the timer and the thread of the game loop. -/
inductive Thread where
  | timer
  | render
  deriving DecidableEq, Repr

/-- The state after the statements of the two threads have run in the order the schedule
names: each entry lets the named thread execute its next statement (nothing, if it has
none left). -/
def interleave : List Thread → Game → List (Game → Game) → List (Game → Game) → Game
  | [], s, _, _ => s
  | .timer :: sched, s, w :: ws, rs => interleave sched (w s) ws rs
  | .timer :: sched, s, [], rs => interleave sched s [] rs
  | .render :: sched, s, ws, r :: rs => interleave sched (r s) ws rs
  | .render :: sched, s, ws, [] => interleave sched s ws []

/-- The constructed state with the device handle set, as it is while the timer runs. -/
def pollingState : Game :=
  { Game.ctor with
    m_I2cMPU6050Device := some { DeviceId := "I2C1", SlaveAddress := 0x68 }
    m_PeriodicTimer := some { Duration := 400000 } }

/-- A frame whose three accelerometer pairs are `3F FF` (raw 16383 each). -/
def frameAllOneG : Frame := ![0x3F, 0xFF, 0x3F, 0xFF, 0x3F, 0xFF, 0, 0, 0, 0, 0, 0, 0, 0]

/-- A schedule in which `Update` runs after the first store of a tick and before the
second: store of accelX, the three statements of `Update`, the remaining three stores. -/
def updateBetweenStores : List Thread :=
  [.timer, .render, .render, .render, .timer, .timer, .timer]

/-! ## Lemmas on the reassembly and on one tick -/

theorem castShort_of_range (n : Int) (h1 : -32768 ≤ n) (h2 : n ≤ 32767) : castShort n = n := by
  unfold castShort; omega

theorem reassembleSum_range (hi lo : Byte) :
    -32768 ≤ reassembleSum hi lo ∧ reassembleSum hi lo ≤ 32767 := by
  have h1 := hi.isLt
  have h2 := lo.isLt
  unfold reassembleSum castShort
  omega

theorem reassemble_eq (hi lo : Byte) :
    reassemble hi lo = twosComplement (bigEndian hi lo) := by
  have h1 := hi.isLt
  have h2 := lo.isLt
  unfold reassemble reassembleSum castShort twosComplement bigEndian
  split <;> omega

theorem reassemble_range (hi lo : Byte) :
    -32768 ≤ reassemble hi lo ∧ reassemble hi lo ≤ 32767 := by
  unfold reassemble castShort
  omega

theorem UNITS_PER_G_eq : UNITS_PER_G = 16383 := by decide

theorem roundHalfEven_abs_sub_le (q : ℚ) : |(roundHalfEven q : ℚ) - q| ≤ 1 / 2 := by
  have h1 : ((⌊q⌋ : Int) : ℚ) ≤ q := Int.floor_le q
  have h2 : q < ((⌊q⌋ : Int) : ℚ) + 1 := Int.lt_floor_add_one q
  unfold roundHalfEven
  simp only
  split_ifs with ha hb hc
  · rw [abs_le]; constructor <;> linarith
  · rw [abs_le]; push_cast; constructor <;> linarith
  · rw [abs_le]; constructor <;> linarith
  · rw [abs_le]; push_cast; constructor <;> linarith

theorem roundHalfEven_eq_of_abs_sub_lt (q : ℚ) (m : Int) (h : |q - (m : ℚ)| < 1 / 2) :
    roundHalfEven q = m := by
  have h1 := roundHalfEven_abs_sub_le q
  rw [abs_lt] at h
  rw [abs_le] at h1
  have h3 : ((roundHalfEven q - m : Int) : ℚ) < 1 := by push_cast; linarith
  have h4 : (-1 : ℚ) < ((roundHalfEven q - m : Int) : ℚ) := by push_cast; linarith
  have h5 : roundHalfEven q - m < 1 := by exact_mod_cast h3
  have h6 : -1 < roundHalfEven q - m := by exact_mod_cast h4
  omega

theorem log2_eq_of_bounds (q : ℚ) (e : Int) (h0 : 0 < q) (h1 : (2 : ℚ) ^ e ≤ q)
    (h2 : q < (2 : ℚ) ^ (e + 1)) : Int.log 2 q = e := by
  have ha : e ≤ Int.log 2 q := (Int.zpow_le_iff_le_log (by norm_num) h0).mp (by exact_mod_cast h1)
  have hb : Int.log 2 q < e + 1 := (Int.lt_zpow_iff_log_lt (by norm_num) h0).mp (by exact_mod_cast h2)
  omega

theorem roundBinary32_eq (q : ℚ) (e m : Int) (hq : q ≠ 0) (he : -126 ≤ e)
    (h1 : (2 : ℚ) ^ e ≤ |q|) (h2 : |q| < (2 : ℚ) ^ (e + 1))
    (hm : |q / (2 : ℚ) ^ (e - 23) - (m : ℚ)| < 1 / 2) :
    roundBinary32 q = (m : ℚ) * (2 : ℚ) ^ (e - 23) := by
  have hlog : Int.log 2 |q| = e := log2_eq_of_bounds |q| e (abs_pos.mpr hq) h1 h2
  unfold roundBinary32
  simp only [hq, if_false, hlog, max_eq_left he]
  rw [roundHalfEven_eq_of_abs_sub_lt _ m hm]

theorem roundBinary32_error (q : ℚ) (h : (2 : ℚ) ^ (-126 : Int) ≤ |q|) :
    |roundBinary32 q - q| ≤ (2 : ℚ) ^ (-24 : Int) * |q| := by
  have hq0 : 0 < |q| := lt_of_lt_of_le (by positivity) h
  have hq : q ≠ 0 := abs_pos.mp hq0
  have he : -126 ≤ Int.log 2 |q| :=
    (Int.zpow_le_iff_le_log (by norm_num) hq0).mp (by exact_mod_cast h)
  have hle : (2 : ℚ) ^ (Int.log 2 |q|) ≤ |q| := by
    exact_mod_cast Int.zpow_log_le_self (b := 2) (by norm_num) hq0
  unfold roundBinary32
  simp only [hq, if_false, max_eq_left he]
  set e := Int.log 2 |q| with hedef
  have hulp : (0 : ℚ) < (2 : ℚ) ^ (e - 23) := by positivity
  have hr := roundHalfEven_abs_sub_le (q / (2 : ℚ) ^ (e - 23))
  have hfac : (roundHalfEven (q / (2 : ℚ) ^ (e - 23)) : ℚ) * (2 : ℚ) ^ (e - 23) - q
      = ((roundHalfEven (q / (2 : ℚ) ^ (e - 23)) : ℚ) - q / (2 : ℚ) ^ (e - 23))
          * (2 : ℚ) ^ (e - 23) := by
    field_simp
  rw [hfac, abs_mul, abs_of_pos hulp]
  have hsplit : (2 : ℚ) ^ (e - 23) = (2 : ℚ) ^ e * (2 : ℚ) ^ (-23 : Int) := by
    rw [← zpow_add₀ (by norm_num : (2 : ℚ) ≠ 0)]; rfl
  calc |(roundHalfEven (q / (2 : ℚ) ^ (e - 23)) : ℚ) - q / (2 : ℚ) ^ (e - 23)|
        * (2 : ℚ) ^ (e - 23)
      ≤ 1 / 2 * (2 : ℚ) ^ (e - 23) := by
        exact mul_le_mul_of_nonneg_right hr hulp.le
    _ = (2 : ℚ) ^ (-24 : Int) * (2 : ℚ) ^ e := by rw [hsplit]; norm_num; ring
    _ ≤ (2 : ℚ) ^ (-24 : Int) * |q| := by
        exact mul_le_mul_of_nonneg_left hle (by positivity)

theorem roundBinary32_intCast (n : Int) (h : |n| < 2 ^ 24) : roundBinary32 (n : ℚ) = n := by
  by_cases hn : n = 0
  · simp [hn, roundBinary32]
  have hq : (n : ℚ) ≠ 0 := by exact_mod_cast hn
  have hq0 : 0 < |(n : ℚ)| := abs_pos.mpr hq
  have h1 : (1 : ℚ) ≤ |(n : ℚ)| := by
    have : 1 ≤ |n| := Int.one_le_abs hn
    exact_mod_cast this
  have hlt : |(n : ℚ)| < (2 : ℚ) ^ (24 : Int) := by
    have h3 : ((|n| : Int) : ℚ) < ((2 ^ 24 : Int) : ℚ) := by exact_mod_cast h
    rw [Int.cast_abs] at h3
    norm_num at h3 ⊢
    exact h3
  have he0 : 0 ≤ Int.log 2 |(n : ℚ)| :=
    (Int.zpow_le_iff_le_log (by norm_num) hq0).mp (by simpa using h1)
  have he1 : Int.log 2 |(n : ℚ)| < 24 :=
    (Int.lt_zpow_iff_log_lt (by norm_num) hq0).mp (by exact_mod_cast hlt)
  unfold roundBinary32
  simp only [hq, if_false, max_eq_left (by omega : (-126 : Int) ≤ Int.log 2 |(n : ℚ)|)]
  set e := Int.log 2 |(n : ℚ)| with hedef
  obtain ⟨k, hk⟩ : ∃ k : Nat, (k : Int) = 23 - e := ⟨(23 - e).toNat, by omega⟩
  have hek : e - 23 = -(k : Int) := by omega
  have hdiv : (n : ℚ) / (2 : ℚ) ^ (e - 23) = ((n * 2 ^ k : Int) : ℚ) := by
    rw [hek, zpow_neg, zpow_natCast]
    push_cast
    field_simp
  rw [hdiv, roundHalfEven_eq_of_abs_sub_lt _ (n * 2 ^ k) (by simp)]
  rw [hek, zpow_neg, zpow_natCast]
  push_cast
  field_simp

theorem roundBinary32_range (raw : Int) (h1 : -32768 ≤ raw) (h2 : raw ≤ 32767) :
    (-16385 : ℚ) / 8192 ≤ roundBinary32 ((raw : ℚ) / 16383) ∧
      roundBinary32 ((raw : ℚ) / 16383) ≤ (32769 : ℚ) / 16384 := by
  by_cases hmax : raw = 32767
  · have := roundBinary32_eq (32767 / 16383) 1 8388864 (by norm_num) (by norm_num)
      (by rw [abs_of_pos (by norm_num)]; norm_num)
      (by rw [abs_of_pos (by norm_num)]; norm_num)
      (by norm_num [abs_lt])
    subst hmax
    push_cast
    rw [this]; norm_num
  by_cases hmin : raw = -32768
  · have := roundBinary32_eq (-32768 / 16383) 1 (-8389120) (by norm_num) (by norm_num)
      (by rw [abs_of_neg (by norm_num)]; norm_num)
      (by rw [abs_of_neg (by norm_num)]; norm_num)
      (by norm_num [abs_lt])
    subst hmin
    push_cast
    rw [this]; norm_num
  by_cases hzero : raw = 0
  · subst hzero
    simp only [Int.cast_zero, zero_div, roundBinary32, if_true]
    norm_num
  have hlo : (-32767 : ℚ) ≤ (raw : ℚ) := by exact_mod_cast (by omega : (-32767 : Int) ≤ raw)
  have hhi : (raw : ℚ) ≤ 32766 := by exact_mod_cast (by omega : raw ≤ (32766 : Int))
  have hone : (1 : ℚ) ≤ |(raw : ℚ)| := by
    have : 1 ≤ |raw| := Int.one_le_abs hzero
    exact_mod_cast this
  have habs : |(raw : ℚ) / 16383| = |(raw : ℚ)| / 16383 := by
    rw [abs_div, abs_of_pos (by norm_num : (0 : ℚ) < 16383)]
  have habs_hi : |(raw : ℚ) / 16383| ≤ 32767 / 16383 := by
    rw [habs]
    apply div_le_div_of_nonneg_right _ (by norm_num)
    rw [abs_le]; constructor <;> linarith
  have habs_lo : (2 : ℚ) ^ (-126 : Int) ≤ |(raw : ℚ) / 16383| := by
    rw [habs]
    calc (2 : ℚ) ^ (-126 : Int) ≤ 1 / 16383 := by
          rw [zpow_neg, ← one_div]
          apply one_div_le_one_div_of_le (by norm_num)
          norm_num
      _ ≤ |(raw : ℚ)| / 16383 := div_le_div_of_nonneg_right hone (by norm_num)
  have herr := roundBinary32_error _ habs_lo
  rw [abs_le] at herr
  have hq1 : (raw : ℚ) / 16383 ≤ 32766 / 16383 := div_le_div_of_nonneg_right hhi (by norm_num)
  have hq2 : (-32767 : ℚ) / 16383 ≤ (raw : ℚ) / 16383 :=
    div_le_div_of_nonneg_right hlo (by norm_num)
  have ht : (2 : ℚ) ^ (-24 : Int) * |(raw : ℚ) / 16383| ≤ 1 / 4194304 := by
    calc (2 : ℚ) ^ (-24 : Int) * |(raw : ℚ) / 16383|
        ≤ (2 : ℚ) ^ (-24 : Int) * (32767 / 16383) :=
          mul_le_mul_of_nonneg_left habs_hi (by positivity)
      _ ≤ 1 / 4194304 := by norm_num
  constructor
  · linarith [herr.1]
  · linarith [herr.2]

theorem normalize_eq_round (raw : Int) (h1 : -32768 ≤ raw) (h2 : raw ≤ 32767) :
    normalize raw = roundBinary32 ((raw : ℚ) / 16383) := by
  unfold normalize divFloat intToFloat
  rw [UNITS_PER_G_eq, roundBinary32_intCast raw (by rw [abs_lt]; constructor <;> omega),
    roundBinary32_intCast 16383 (by decide)]
  norm_num

theorem roundBinary32_one : roundBinary32 1 = 1 := by
  rw [roundBinary32_eq 1 0 (2 ^ 23) (by norm_num) (by norm_num) (by norm_num) (by norm_num)
    (by norm_num)]
  norm_num

theorem normalize_zero : normalize 0 = 0 := by
  rw [normalize_eq_round 0 (by norm_num) (by norm_num)]
  simp [roundBinary32]

theorem normalize_16383 : normalize 16383 = 1 := by
  rw [normalize_eq_round 16383 (by norm_num) (by norm_num)]
  norm_num
  exact roundBinary32_one

theorem quotient_error (raw : Int) :
    |roundBinary32 ((raw : ℚ) / 16383) - (raw : ℚ) / 16383|
      ≤ |(raw : ℚ) / 16383| / 2 ^ 24 := by
  by_cases hzero : raw = 0
  · subst hzero
    simp [roundBinary32]
  have hone : (1 : ℚ) ≤ |(raw : ℚ)| := by
    have : 1 ≤ |raw| := Int.one_le_abs hzero
    exact_mod_cast this
  have hlow : (2 : ℚ) ^ (-126 : Int) ≤ |(raw : ℚ) / 16383| := by
    rw [abs_div, abs_of_pos (by norm_num : (0 : ℚ) < 16383)]
    calc (2 : ℚ) ^ (-126 : Int) ≤ 1 / 16383 := by
          rw [zpow_neg, ← one_div]
          apply one_div_le_one_div_of_le (by norm_num)
          norm_num
      _ ≤ |(raw : ℚ)| / 16383 := div_le_div_of_nonneg_right hone (by norm_num)
  have herr := roundBinary32_error _ hlow
  have hmul : (2 : ℚ) ^ (-24 : Int) * |(raw : ℚ) / 16383| = |(raw : ℚ) / 16383| / 2 ^ 24 := by
    rw [show (2 : ℚ) ^ (-24 : Int) = 1 / 2 ^ 24 by norm_num]
    ring
  rw [hmul] at herr
  exact herr

theorem decode_eq_round (b : Frame) :
    (decode b).accelX = roundBinary32 (((rawValues b).AccelerationRawX : ℚ) / 16383) ∧
    (decode b).accelY = roundBinary32 (((rawValues b).AccelerationRawY : ℚ) / 16383) ∧
    (decode b).accelZ = roundBinary32 (((rawValues b).AccelerationRawZ : ℚ) / 16383) := by
  refine ⟨?_, ?_, ?_⟩
  · exact normalize_eq_round _ (reassemble_range _ _).1 (reassemble_range _ _).2
  · exact normalize_eq_round _ (reassemble_range _ _).1 (reassemble_range _ _).2
  · exact normalize_eq_round _ (reassemble_range _ _).1 (reassemble_range _ _).2

theorem encode_reassemble (x : Int) (h1 : -32768 ≤ x) (h2 : x ≤ 32767) :
    reassemble (encodeHi x) (encodeLo x) = x := by
  have hhi : ((encodeHi x).val : Int) = (x % 65536) / 256 := by
    unfold encodeHi
    simp only [Fin.ofNat, Fin.val_mk]
    omega
  have hlo : ((encodeLo x).val : Int) = (x % 65536) % 256 := by
    unfold encodeLo
    simp only [Fin.ofNat, Fin.val_mk]
    omega
  unfold reassemble reassembleSum castShort
  rw [hhi, hlo]
  omega

theorem TimerElapsed_ok (s : Game) (dev : I2cDevice) (b : Frame)
    (h : s.m_I2cMPU6050Device = some dev) :
    Game.TimerElapsed s (.ok b) =
      .ok { s with m_AccelData := decode b,
                   m_AccelerometerReads := s.m_AccelerometerReads + 1 } := by
  simp [Game.TimerElapsed, h, tryCatch, tryCatchThe, MonadExceptOf.tryCatch, Except.tryCatch,
    bind, Except.bind, pure, Except.pure]

theorem TimerElapsed_error (s : Game) (e : BusException) :
    Game.TimerElapsed s (.error e) = .ok s := by
  unfold Game.TimerElapsed
  split <;> rfl

theorem TimerElapsed_null (s : Game) (r : Except BusException Frame)
    (h : s.m_I2cMPU6050Device = none) :
    Game.TimerElapsed s r = .ok s := by
  simp [Game.TimerElapsed, h, pure, Except.pure]

/-! ## The decoder -/

/-- Claim C1: for every 14-byte frame the raw accelerometer components X, Y, Z computed by
the tick are the 16-bit two's-complement reading of the big-endian byte pairs at offsets
0, 2 and 4: with `u = b[2k] * 256 + b[2k+1]` the raw value is `u` when `u < 32768` and
`u - 65536` otherwise; and the `int` sum of the compound assignment `+= low byte` lies in
the range of `short`, so narrowing it changes nothing. -/
theorem raw_is_twos_complement_of_big_endian (b : Frame) :
    ((rawValues b).AccelerationRawX =
        (if ((b 0).val : Int) * 256 + (b 1).val < 32768 then ((b 0).val : Int) * 256 + (b 1).val
         else ((b 0).val : Int) * 256 + (b 1).val - 65536)) ∧
    ((rawValues b).AccelerationRawY =
        (if ((b 2).val : Int) * 256 + (b 3).val < 32768 then ((b 2).val : Int) * 256 + (b 3).val
         else ((b 2).val : Int) * 256 + (b 3).val - 65536)) ∧
    ((rawValues b).AccelerationRawZ =
        (if ((b 4).val : Int) * 256 + (b 5).val < 32768 then ((b 4).val : Int) * 256 + (b 5).val
         else ((b 4).val : Int) * 256 + (b 5).val - 65536)) ∧
    (-32768 ≤ reassembleSum (b 0) (b 1) ∧ reassembleSum (b 0) (b 1) ≤ 32767) ∧
    (-32768 ≤ reassembleSum (b 2) (b 3) ∧ reassembleSum (b 2) (b 3) ≤ 32767) ∧
    (-32768 ≤ reassembleSum (b 4) (b 5) ∧ reassembleSum (b 4) (b 5) ≤ 32767) := by
  refine ⟨?_, ?_, ?_, reassembleSum_range _ _, reassembleSum_range _ _, reassembleSum_range _ _⟩
  · simpa [rawValues, twosComplement, bigEndian] using reassemble_eq (b 0) (b 1)
  · simpa [rawValues, twosComplement, bigEndian] using reassemble_eq (b 2) (b 3)
  · simpa [rawValues, twosComplement, bigEndian] using reassemble_eq (b 4) (b 5)

/-- Counterexample to C2 as stated: for the frame whose X bytes are `00 01` the raw X
component is 1 and the stored `accelX` is the `float` quotient `16385 / 2^28`, which is not
the exact rational `1 / 16383`. -/
theorem stored_sample_is_not_exact_quotient :
    (rawValues ![0x00, 0x01, 0, 0, 0, 0, 0, 0, 0, 0, 0, 0, 0, 0]).AccelerationRawX = 1 ∧
    (decode ![0x00, 0x01, 0, 0, 0, 0, 0, 0, 0, 0, 0, 0, 0, 0]).accelX = 16385 / 268435456 ∧
    (decode ![0x00, 0x01, 0, 0, 0, 0, 0, 0, 0, 0, 0, 0, 0, 0]).accelX ≠
      ((rawValues ![0x00, 0x01, 0, 0, 0, 0, 0, 0, 0, 0, 0, 0, 0, 0]).AccelerationRawX : ℚ)
        / 16383 := by
  have hr : (rawValues ![0x00, 0x01, 0, 0, 0, 0, 0, 0, 0, 0, 0, 0, 0, 0]).AccelerationRawX
      = 1 := by decide
  have hv : roundBinary32 (1 / 16383) = 16385 / 268435456 := by
    rw [roundBinary32_eq (1 / 16383) (-14) 8389120 (by norm_num) (by norm_num)
      (by rw [abs_of_pos (by norm_num)]; norm_num)
      (by rw [abs_of_pos (by norm_num)]; norm_num)
      (by norm_num [abs_lt])]
    norm_num
  have hx : (decode ![0x00, 0x01, 0, 0, 0, 0, 0, 0, 0, 0, 0, 0, 0, 0]).accelX
      = 16385 / 268435456 := by
    rw [(decode_eq_round _).1, hr]
    norm_num
    exact hv
  refine ⟨hr, hx, ?_⟩
  rw [hx, hr]
  norm_num

/-- Claim C2, amended: the divisor `UNITS_PER_G` is the truncated integer quotient
`32767 / 2 = 16383`, not `16383.5`; for every frame each of the three values computed by
the tick is the `float` quotient of its raw signed 16-bit component by 16383, that is the
binary32 value nearest to `raw / 16383`, which differs from the exact rational `raw / 16383`
by at most `|raw / 16383| / 2^24`; and these are the values a successful tick stores in
`m_AccelData`. -/
theorem units_per_g_truncated_and_sample_is_rounded_quotient :
    UNITS_PER_G = 16383 ∧ (UNITS_PER_G : ℚ) ≠ 32767 / 2 ∧
    (∀ b : Frame,
      (decode b).accelX = roundBinary32 (((rawValues b).AccelerationRawX : ℚ) / 16383) ∧
      (decode b).accelY = roundBinary32 (((rawValues b).AccelerationRawY : ℚ) / 16383) ∧
      (decode b).accelZ = roundBinary32 (((rawValues b).AccelerationRawZ : ℚ) / 16383) ∧
      |(decode b).accelX - ((rawValues b).AccelerationRawX : ℚ) / 16383|
        ≤ |((rawValues b).AccelerationRawX : ℚ) / 16383| / 2 ^ 24 ∧
      |(decode b).accelY - ((rawValues b).AccelerationRawY : ℚ) / 16383|
        ≤ |((rawValues b).AccelerationRawY : ℚ) / 16383| / 2 ^ 24 ∧
      |(decode b).accelZ - ((rawValues b).AccelerationRawZ : ℚ) / 16383|
        ≤ |((rawValues b).AccelerationRawZ : ℚ) / 16383| / 2 ^ 24) ∧
    (∀ (s : Game) (dev : I2cDevice) (b : Frame), ∃ s1 : Game,
      Game.TimerElapsed { s with m_I2cMPU6050Device := some dev } (.ok b) = .ok s1 ∧
      s1.m_AccelData = decode b) := by
  refine ⟨UNITS_PER_G_eq, ?_, ?_, ?_⟩
  · rw [UNITS_PER_G_eq]; norm_num
  · intro b
    obtain ⟨hx, hy, hz⟩ := decode_eq_round b
    refine ⟨hx, hy, hz, ?_, ?_, ?_⟩
    · rw [hx]; exact quotient_error _
    · rw [hy]; exact quotient_error _
    · rw [hz]; exact quotient_error _
  · intro s dev b
    exact ⟨_, TimerElapsed_ok _ dev b rfl, rfl⟩

/-- Counterexample to C3 as stated: the frame `FF FE 3F FF 00 64 ..` encodes the raw triple
`(-2, 16383, 100)`; it decodes to `(-16385 / 2^27, 1, 409625 / 2^26)`, which is not
`(-2/16383, 16383/16383, 100/16383)`. -/
theorem decode_of_encoding_is_not_exact_quotient :
    decode ![0xFF, 0xFE, 0x3F, 0xFF, 0x00, 0x64, 1, 2, 3, 4, 5, 6, 7, 8] =
      { accelX := -16385 / 134217728, accelY := 1, accelZ := 409625 / 67108864 } ∧
    decode ![0xFF, 0xFE, 0x3F, 0xFF, 0x00, 0x64, 1, 2, 3, 4, 5, 6, 7, 8] ≠
      { accelX := ((-2 : Int) : ℚ) / 16383, accelY := ((16383 : Int) : ℚ) / 16383,
        accelZ := ((100 : Int) : ℚ) / 16383 } := by
  have hr : rawValues ![0xFF, 0xFE, 0x3F, 0xFF, 0x00, 0x64, 1, 2, 3, 4, 5, 6, 7, 8] =
      { AccelerationRawX := -2, AccelerationRawY := 16383, AccelerationRawZ := 100,
        GyroRawX := 772, GyroRawY := 1286, GyroRawZ := 1800 } := by decide
  have hx : roundBinary32 (-2 / 16383) = -16385 / 134217728 := by
    rw [roundBinary32_eq (-2 / 16383) (-13) (-8389120) (by norm_num) (by norm_num)
      (by rw [abs_of_neg (by norm_num)]; norm_num)
      (by rw [abs_of_neg (by norm_num)]; norm_num)
      (by norm_num [abs_lt])]
    norm_num
  have hz : roundBinary32 (100 / 16383) = 409625 / 67108864 := by
    rw [roundBinary32_eq (100 / 16383) (-8) 13108000 (by norm_num) (by norm_num)
      (by rw [abs_of_pos (by norm_num)]; norm_num)
      (by rw [abs_of_pos (by norm_num)]; norm_num)
      (by norm_num [abs_lt])]
    norm_num
  have hd : decode ![0xFF, 0xFE, 0x3F, 0xFF, 0x00, 0x64, 1, 2, 3, 4, 5, 6, 7, 8] =
      { accelX := -16385 / 134217728, accelY := 1, accelZ := 409625 / 67108864 } := by
    have hxn : normalize (-2) = -16385 / 134217728 := by
      rw [normalize_eq_round (-2) (by norm_num) (by norm_num),
        show (((-2 : Int) : ℚ) / 16383) = -2 / 16383 by norm_num]
      exact hx
    have hzn : normalize 100 = 409625 / 67108864 := by
      rw [normalize_eq_round 100 (by norm_num) (by norm_num)]
      norm_num
      exact hz
    simp only [decode, hr, hxn, hzn, normalize_16383]
  refine ⟨hd, ?_⟩
  rw [hd]
  intro h
  have h2 := congrArg AccelData.accelX h
  norm_num at h2

/-- Claim C3, amended: round trip within floating-point tolerance.  For every triple
`x, y, z` of integers in `[-32768, 32767]`, every 14-byte frame whose bytes 0..5 are the
big-endian two's-complement encodings of `x, y, z` (bytes 6..13 arbitrary) gives back the
raw components `x, y, z` exactly and decodes to the sample of the binary32 values nearest
to `x/16383, y/16383, z/16383`, each within `|v| / 2^24` of the exact quotient `v`. -/
theorem decode_undoes_big_endian_encoding_within_tolerance (b : Frame) (x y z : Int)
    (hx : -32768 ≤ x ∧ x ≤ 32767) (hy : -32768 ≤ y ∧ y ≤ 32767)
    (hz : -32768 ≤ z ∧ z ≤ 32767)
    (h0 : b 0 = encodeHi x) (h1 : b 1 = encodeLo x)
    (h2 : b 2 = encodeHi y) (h3 : b 3 = encodeLo y)
    (h4 : b 4 = encodeHi z) (h5 : b 5 = encodeLo z) :
    (rawValues b).AccelerationRawX = x ∧ (rawValues b).AccelerationRawY = y ∧
    (rawValues b).AccelerationRawZ = z ∧
    decode b =
      { accelX := roundBinary32 ((x : ℚ) / 16383), accelY := roundBinary32 ((y : ℚ) / 16383),
        accelZ := roundBinary32 ((z : ℚ) / 16383) } ∧
    |(decode b).accelX - (x : ℚ) / 16383| ≤ |(x : ℚ) / 16383| / 2 ^ 24 ∧
    |(decode b).accelY - (y : ℚ) / 16383| ≤ |(y : ℚ) / 16383| / 2 ^ 24 ∧
    |(decode b).accelZ - (z : ℚ) / 16383| ≤ |(z : ℚ) / 16383| / 2 ^ 24 := by
  have hrx : (rawValues b).AccelerationRawX = x := by
    simp only [rawValues, h0, h1, encode_reassemble x hx.1 hx.2]
  have hry : (rawValues b).AccelerationRawY = y := by
    simp only [rawValues, h2, h3, encode_reassemble y hy.1 hy.2]
  have hrz : (rawValues b).AccelerationRawZ = z := by
    simp only [rawValues, h4, h5, encode_reassemble z hz.1 hz.2]
  obtain ⟨dx, dy, dz⟩ := decode_eq_round b
  rw [hrx] at dx
  rw [hry] at dy
  rw [hrz] at dz
  have hd : decode b =
      { accelX := roundBinary32 ((x : ℚ) / 16383), accelY := roundBinary32 ((y : ℚ) / 16383),
        accelZ := roundBinary32 ((z : ℚ) / 16383) } := by
    cases hdb : decode b with
    | mk ax ay az =>
      rw [hdb] at dx dy dz
      simp only at dx dy dz
      rw [dx, dy, dz]
  refine ⟨hrx, hry, hrz, hd, ?_, ?_, ?_⟩
  · rw [dx]; exact quotient_error x
  · rw [dy]; exact quotient_error y
  · rw [dz]; exact quotient_error z

/-- Witness for C3: the frame `FF FE 3F FF 00 64 ..` encodes `(-2, 16383, 100)`. -/
theorem decode_undoes_big_endian_encoding_within_tolerance_witness :
    decode ![0xFF, 0xFE, 0x3F, 0xFF, 0x00, 0x64, 1, 2, 3, 4, 5, 6, 7, 8] =
      { accelX := roundBinary32 (((-2 : Int) : ℚ) / 16383),
        accelY := roundBinary32 (((16383 : Int) : ℚ) / 16383),
        accelZ := roundBinary32 (((100 : Int) : ℚ) / 16383) } :=
  (decode_undoes_big_endian_encoding_within_tolerance
    ![0xFF, 0xFE, 0x3F, 0xFF, 0x00, 0x64, 1, 2, 3, 4, 5, 6, 7, 8] (-2) 16383 100
    (by decide) (by decide) (by decide)
    (by decide) (by decide) (by decide) (by decide) (by decide) (by decide)).2.2.2.1

/-- Counterexample to C4 as stated: for the frame whose X bytes are `3F FF` (raw X = 16383)
the decoded `accelX` is exactly 1; it is not strictly greater than 1.0 and it is not within
0.00001 of 1.00006. -/
theorem accelX_of_raw_16383_is_not_1_00006 :
    (decode ![0x3F, 0xFF, 0, 0, 0, 0, 0, 0, 0, 0, 0, 0, 0, 0]).accelX = 1 ∧
    ¬ (|(decode ![0x3F, 0xFF, 0, 0, 0, 0, 0, 0, 0, 0, 0, 0, 0, 0]).accelX - 1.00006| ≤ 0.00001 ∧
        1 < (decode ![0x3F, 0xFF, 0, 0, 0, 0, 0, 0, 0, 0, 0, 0, 0, 0]).accelX) := by
  have h : (decode ![0x3F, 0xFF, 0, 0, 0, 0, 0, 0, 0, 0, 0, 0, 0, 0]).accelX = 1 := by
    have hr : reassemble (0x3F : Byte) (0xFF : Byte) = 16383 := by decide
    simp [decode, rawValues, hr, normalize_16383]
  rw [h]
  norm_num

/-- Claim C4, amended: for every frame whose X bytes are `3F FF` the raw X component is
16383 and, with the truncated divisor 16383 that the code uses, the decoded `accelX` is
exactly 1: it is not greater than 1.0 and lies 0.00006 below 1.00006. -/
theorem accelX_of_raw_16383_is_one (b : Frame) (h0 : b 0 = 0x3F) (h1 : b 1 = 0xFF) :
    (rawValues b).AccelerationRawX = 16383 ∧ (decode b).accelX = 1 ∧
    ¬ (1 < (decode b).accelX) ∧ (1.00006 : ℚ) - (decode b).accelX = 0.00006 := by
  have hr : reassemble (0x3F : Byte) (0xFF : Byte) = 16383 := by decide
  have hraw : (rawValues b).AccelerationRawX = 16383 := by
    simp [rawValues, h0, h1, hr]
  have hx : (decode b).accelX = 1 := by
    simp only [decode, hraw, normalize_16383]
  refine ⟨hraw, hx, ?_, ?_⟩ <;> rw [hx] <;> norm_num

/-- Witness for C4: the frame `3F FF 00 .. 00`. -/
theorem accelX_of_raw_16383_is_one_witness :
    (rawValues ![0x3F, 0xFF, 0, 0, 0, 0, 0, 0, 0, 0, 0, 0, 0, 0]).AccelerationRawX = 16383 ∧
    (decode ![0x3F, 0xFF, 0, 0, 0, 0, 0, 0, 0, 0, 0, 0, 0, 0]).accelX = 1 ∧
    ¬ (1 < (decode ![0x3F, 0xFF, 0, 0, 0, 0, 0, 0, 0, 0, 0, 0, 0, 0]).accelX) ∧
    (1.00006 : ℚ) - (decode ![0x3F, 0xFF, 0, 0, 0, 0, 0, 0, 0, 0, 0, 0, 0, 0]).accelX
      = 0.00006 :=
  accelX_of_raw_16383_is_one ![0x3F, 0xFF, 0, 0, 0, 0, 0, 0, 0, 0, 0, 0, 0, 0]
    (by decide) (by decide)

/-! ## Ticks -/

theorem successCount_append (xs ys : List (Except BusException Frame)) :
    successCount (xs ++ ys) = successCount xs + successCount ys := by
  induction xs with
  | nil => simp [successCount]
  | cons r rs ih =>
    cases r with
    | ok b => rw [List.cons_append]; simp only [successCount, ih]; omega
    | error e => rw [List.cons_append]; simp only [successCount, ih]

theorem runTicks_eq (outcomes : List (Except BusException Frame)) :
    ∀ (s : Game) (dev : I2cDevice), s.m_I2cMPU6050Device = some dev →
      Game.runTicks s outcomes =
        .ok { s with
              m_AccelData := ((lastFrame outcomes).map decode).getD s.m_AccelData,
              m_AccelerometerReads := s.m_AccelerometerReads + successCount outcomes } := by
  induction outcomes with
  | nil => intro s dev _; rfl
  | cons r rs ih =>
    intro s dev h
    cases r with
    | error e =>
      have hstep : Game.runTicks s (.error e :: rs) = Game.runTicks s rs := by
        simp [Game.runTicks, TimerElapsed_error, bind, Except.bind]
      rw [hstep, ih s dev h]
      cases hl : lastFrame rs <;> simp [lastFrame, successCount, hl]
    | ok b =>
      have hstep : Game.runTicks s (.ok b :: rs) =
          Game.runTicks { s with m_AccelData := decode b,
                                 m_AccelerometerReads := s.m_AccelerometerReads + 1 } rs := by
        simp [Game.runTicks, TimerElapsed_ok s dev b h, bind, Except.bind]
      rw [hstep, ih { s with m_AccelData := decode b,
                             m_AccelerometerReads := s.m_AccelerometerReads + 1 } dev h]
      cases hl : lastFrame rs <;> simp [lastFrame, successCount, hl] <;> omega

/-- Claim C5: failure isolation.  For every prior state, a tick whose `WriteRead`
transaction throws ends normally (no exception leaves the handler) and leaves the three
components of the sample and `m_AccelerometerReads` equal to their prior values. -/
theorem failed_tick_changes_nothing (s : Game) (e : BusException) :
    ∃ s1 : Game, Game.TimerElapsed s (.error e) = .ok s1 ∧
      s1.m_AccelData.accelX = s.m_AccelData.accelX ∧
      s1.m_AccelData.accelY = s.m_AccelData.accelY ∧
      s1.m_AccelData.accelZ = s.m_AccelData.accelZ ∧
      s1.m_AccelerometerReads = s.m_AccelerometerReads ∧ s1 = s :=
  ⟨s, TimerElapsed_error s e, rfl, rfl, rfl, rfl, rfl⟩

/-- Claim C6: end to end.  From the constructed state (counter 0) with the device handle
set, every finite sequence of tick outcomes runs to completion; afterwards the counter is
the number of successful ticks and the sample is the decode of the last successfully read
frame (the initial sample if there is none).  Five successful frames give counter 5 and
the decode of the fifth, and running further ticks never lowers the counter. -/
theorem ticks_count_successes_and_keep_last_decode (dev : I2cDevice) :
    (∀ outcomes : List (Except BusException Frame), ∃ sN : Game,
      Game.runTicks { Game.ctor with m_I2cMPU6050Device := some dev } outcomes = .ok sN ∧
      sN.m_AccelerometerReads = successCount outcomes ∧
      sN.m_AccelData = ((lastFrame outcomes).map decode).getD Game.ctor.m_AccelData) ∧
    (∀ f1 f2 f3 f4 f5 : Frame, ∃ s5 : Game,
      Game.runTicks { Game.ctor with m_I2cMPU6050Device := some dev }
        [.ok f1, .ok f2, .ok f3, .ok f4, .ok f5] = .ok s5 ∧
      s5.m_AccelerometerReads = 5 ∧ s5.m_AccelData = decode f5) ∧
    (∀ outcomes more : List (Except BusException Frame), ∃ s1 s2 : Game,
      Game.runTicks { Game.ctor with m_I2cMPU6050Device := some dev } outcomes = .ok s1 ∧
      Game.runTicks { Game.ctor with m_I2cMPU6050Device := some dev } (outcomes ++ more)
        = .ok s2 ∧
      s1.m_AccelerometerReads ≤ s2.m_AccelerometerReads) := by
  refine ⟨?_, ?_, ?_⟩
  · intro outcomes
    refine ⟨_, runTicks_eq outcomes _ dev rfl, ?_, rfl⟩
    simp [Game.ctor]
  · intro f1 f2 f3 f4 f5
    refine ⟨_, runTicks_eq _ _ dev rfl, ?_, ?_⟩
    · simp [Game.ctor, successCount]
    · simp [lastFrame]
  · intro outcomes more
    refine ⟨_, _, runTicks_eq outcomes _ dev rfl, runTicks_eq (outcomes ++ more) _ dev rfl, ?_⟩
    simp [successCount_append]

/-! ## Start-up -/

theorem step_of_no_timer (s : Game) (e : Event) (h : s.m_PeriodicTimer = none) :
    ∃ s1 : Game, Game.step s e = .ok s1 ∧ s1.m_PeriodicTimer = none ∧
      s1.m_AccelData = s.m_AccelData ∧ s1.m_AccelerometerReads = s.m_AccelerometerReads := by
  cases e with
  | timerFired r => exact ⟨s, by simp [Game.step, h, pure, Except.pure], h, rfl, rfl⟩
  | update t => exact ⟨Game.Update s t, rfl, h, rfl, rfl⟩

theorem run_of_no_timer (events : List Event) :
    ∀ s : Game, s.m_PeriodicTimer = none →
      ∃ sN : Game, Game.run s events = .ok sN ∧ sN.m_PeriodicTimer = none ∧
        sN.m_AccelData = s.m_AccelData ∧ sN.m_AccelerometerReads = s.m_AccelerometerReads := by
  induction events with
  | nil => intro s h; exact ⟨s, rfl, h, rfl, rfl⟩
  | cons e es ih =>
    intro s h
    obtain ⟨s1, hs1, ht1, hd1, hc1⟩ := step_of_no_timer s e h
    obtain ⟨sN, hsN, htN, hdN, hcN⟩ := ih s1 ht1
    refine ⟨sN, ?_, htN, hdN.trans hd1, hcN.trans hc1⟩
    simp [Game.run, hs1, hsN, bind, Except.bind]

/-- Claim C7: configuration sequence.  Once a device is opened, for every pattern of
success and failure of the bus writes, the trace of `InitMPU6050` is an initial part of
`[6B 80], sleep 100 ms, [6B 02], [1A 04], [1C 00]`; its writes are exactly the four
configuration writes up to and including the first failing one (all four if none fails),
each of 2 bytes; and the task result is true if and only if all four writes succeed. -/
theorem config_writes_stop_at_first_failure (p : Platform) (s : Game)
    (d0 : DeviceInformation) (rest : List DeviceInformation) (dev : I2cDevice)
    (hdev : p.devices = d0 :: rest)
    (hopen : p.FromIdAsync d0.Id { SlaveAddress := 0x68 } = some dev) :
    (Game.InitMPU6050 p s).2.2 <+: configSequence ∧
    writesOf (Game.InitMPU6050 p s).2.2 = uptoFirstFailure p.writeOk 0 configWrites ∧
    (∀ wb ∈ writesOf (Game.InitMPU6050 p s).2.2, wb.length = 2) ∧
    ((Game.InitMPU6050 p s).1 = true ↔
      (p.writeOk 0 = true ∧ p.writeOk 1 = true ∧ p.writeOk 2 = true ∧ p.writeOk 3 = true)) := by
  have hopen2 : p.FromIdAsync d0.Id { SlaveAddress := I2C_ADDRESS } = some dev := hopen
  cases h0 : p.writeOk 0 <;> cases h1 : p.writeOk 1 <;> cases h2 : p.writeOk 2 <;>
    cases h3 : p.writeOk 3 <;>
    simp [Game.InitMPU6050, hdev, hopen2, Game.WriteByteToI2C, I2cDevice.Write, writesOf,
      uptoFirstFailure, configWrites, configSequence, h0, h1, h2, h3]

/-- Witness for C7: one device that opens, the third write throws.  The trace is
`[6B 80], sleep, [6B 02], [1A 04]` and the result is false. -/
theorem config_writes_stop_at_first_failure_witness :
    (Game.InitMPU6050 platformThirdWriteFails Game.ctor).2.2 <+: configSequence ∧
    writesOf (Game.InitMPU6050 platformThirdWriteFails Game.ctor).2.2
      = uptoFirstFailure platformThirdWriteFails.writeOk 0 configWrites ∧
    (∀ wb ∈ writesOf (Game.InitMPU6050 platformThirdWriteFails Game.ctor).2.2, wb.length = 2) ∧
    ((Game.InitMPU6050 platformThirdWriteFails Game.ctor).1 = true ↔
      (platformThirdWriteFails.writeOk 0 = true ∧ platformThirdWriteFails.writeOk 1 = true ∧
        platformThirdWriteFails.writeOk 2 = true ∧ platformThirdWriteFails.writeOk 3 = true)) :=
  config_writes_stop_at_first_failure platformThirdWriteFails Game.ctor { Id := "I2C1" } []
    { DeviceId := "I2C1", SlaveAddress := 0x68 } rfl rfl

/-- Claim C8: start-up with no sensor.  When the enumeration returns no device,
`InitMPU6050` yields false without any bus write, the continuation of `Initialize` returns
without creating the periodic timer, and whatever timer firings and `Update` calls follow,
the run completes with the sample still the zero default and the counter still 0, so that
`Update` sets roll = 0 and pitch = 0. -/
theorem no_device_keeps_pipeline_disabled
    (FromIdAsync : String → I2cConnectionSettings → Option I2cDevice) (writeOk : Nat → Bool)
    (events : List Event) :
    (Game.InitMPU6050 { devices := [], FromIdAsync := FromIdAsync, writeOk := writeOk }
        Game.ctor).1 = false ∧
    (Game.InitMPU6050 { devices := [], FromIdAsync := FromIdAsync, writeOk := writeOk }
        Game.ctor).2.2 = [] ∧
    (Game.Initialize { devices := [], FromIdAsync := FromIdAsync, writeOk := writeOk }
        Game.ctor).2 = [] ∧
    (Game.Initialize { devices := [], FromIdAsync := FromIdAsync, writeOk := writeOk }
        Game.ctor).1.m_PeriodicTimer = none ∧
    ∃ sN : Game,
      Game.run (Game.Initialize { devices := [], FromIdAsync := FromIdAsync, writeOk := writeOk }
        Game.ctor).1 events = .ok sN ∧
      sN.m_PeriodicTimer = none ∧
      sN.m_AccelData = { accelX := 0, accelY := 0, accelZ := 0 } ∧
      sN.m_AccelerometerReads = 0 ∧
      ∀ t : ℚ, (Game.Update sN t).m_AngleRoll = 0 ∧ (Game.Update sN t).m_AnglePitch = 0 := by
  refine ⟨rfl, rfl, rfl, rfl, ?_⟩
  obtain ⟨sN, hrun, ht, hd, hc⟩ := run_of_no_timer events
    (Game.Initialize { devices := [], FromIdAsync := FromIdAsync, writeOk := writeOk }
      Game.ctor).1 rfl
  have hd0 : sN.m_AccelData = { accelX := 0, accelY := 0, accelZ := 0 } := hd
  refine ⟨sN, hrun, ht, hd0, hc, ?_⟩
  intro t
  simp [Game.Update, hd0]

/-- Claim C9, the code at its failing input: one device is enumerated and opens, the first
configuration write throws.  The periodic timer is not created, as in the zero-devices
case, but `m_I2cMPU6050Device` still holds the opened device, whereas it is null in the
zero-devices case. -/
theorem failed_configuration_keeps_device_handle :
    (Game.Initialize platformEveryWriteFails Game.ctor).1.m_PeriodicTimer = none ∧
    (Game.Initialize platformNoDevice Game.ctor).1.m_PeriodicTimer = none ∧
    (Game.Initialize platformEveryWriteFails Game.ctor).1.m_I2cMPU6050Device
      = some { DeviceId := "I2C1", SlaveAddress := 0x68 } ∧
    (Game.Initialize platformNoDevice Game.ctor).1.m_I2cMPU6050Device = none ∧
    (Game.Initialize platformEveryWriteFails Game.ctor).1
      ≠ (Game.Initialize platformNoDevice Game.ctor).1 := by
  refine ⟨rfl, rfl, rfl, rfl, ?_⟩
  intro h
  have h2 := congrArg Game.m_I2cMPU6050Device h
  simp [Game.Initialize, Game.InitMPU6050, platformEveryWriteFails, platformNoDevice,
    openAlways, Game.WriteByteToI2C, I2cDevice.Write, Game.ctor] at h2

/-! ## The consumer -/

/-- Claim C10: consumer mapping.  For every state, `Update` sets roll = accelY and
pitch = -accelX and builds the world transform from (yaw 0, pitch, roll); changing accelZ
alone changes none of roll, pitch and the transform; and `Update` leaves the stored sample
and the success counter as they were. -/
theorem update_maps_sample_to_roll_and_pitch (s : Game) (elapsedTime : ℚ) :
    (Game.Update s elapsedTime).m_AngleRoll = s.m_AccelData.accelY ∧
    (Game.Update s elapsedTime).m_AnglePitch = -s.m_AccelData.accelX ∧
    (Game.Update s elapsedTime).m_world
      = Matrix.CreateFromYawPitchRoll 0 (-s.m_AccelData.accelX) s.m_AccelData.accelY ∧
    (∀ z : ℚ,
      (Game.Update { s with m_AccelData := { s.m_AccelData with accelZ := z } }
          elapsedTime).m_AngleRoll = (Game.Update s elapsedTime).m_AngleRoll ∧
      (Game.Update { s with m_AccelData := { s.m_AccelData with accelZ := z } }
          elapsedTime).m_AnglePitch = (Game.Update s elapsedTime).m_AnglePitch ∧
      (Game.Update { s with m_AccelData := { s.m_AccelData with accelZ := z } }
          elapsedTime).m_world = (Game.Update s elapsedTime).m_world) ∧
    (Game.Update s elapsedTime).m_AccelData = s.m_AccelData ∧
    (Game.Update s elapsedTime).m_AccelerometerReads = s.m_AccelerometerReads :=
  ⟨rfl, rfl, rfl, fun _ => ⟨rfl, rfl, rfl⟩, rfl, rfl⟩

/-! ## Further properties of the decoder -/

/-- Claim C11: decoding depends on the accelerometer bytes only.  Two 14-byte frames that
agree on bytes 0..5 decode to the same sample, and a successful tick stores the same
sample for both, whatever bytes 6..13 (temperature, gyroscope) are; in particular
the same frame always yields the same sample. -/
theorem decode_depends_on_bytes_0_to_5_only (b1 b2 : Frame)
    (h : ∀ i : Fin 14, i.val < 6 → b1 i = b2 i) :
    decode b1 = decode b2 ∧
    (∀ (s : Game) (dev : I2cDevice), ∃ s1 s2 : Game,
      Game.TimerElapsed { s with m_I2cMPU6050Device := some dev } (.ok b1) = .ok s1 ∧
      Game.TimerElapsed { s with m_I2cMPU6050Device := some dev } (.ok b2) = .ok s2 ∧
      s1.m_AccelData = s2.m_AccelData) := by
  have hd : decode b1 = decode b2 := by
    simp only [decode, rawValues, h 0 (by decide), h 1 (by decide), h 2 (by decide),
      h 3 (by decide), h 4 (by decide), h 5 (by decide)]
  refine ⟨hd, ?_⟩
  intro s dev
  exact ⟨_, _, TimerElapsed_ok _ dev b1 rfl, TimerElapsed_ok _ dev b2 rfl, hd⟩

/-- Witness for C11: two frames with the same bytes 0..5 and different bytes 6..13. -/
theorem decode_depends_on_bytes_0_to_5_only_witness :
    decode ![0x12, 0x34, 0xFF, 0xFE, 0x80, 0x00, 0, 0, 0, 0, 0, 0, 0, 0] =
      decode ![0x12, 0x34, 0xFF, 0xFE, 0x80, 0x00, 9, 8, 7, 6, 5, 4, 3, 2] :=
  (decode_depends_on_bytes_0_to_5_only
    ![0x12, 0x34, 0xFF, 0xFE, 0x80, 0x00, 0, 0, 0, 0, 0, 0, 0, 0]
    ![0x12, 0x34, 0xFF, 0xFE, 0x80, 0x00, 9, 8, 7, 6, 5, 4, 3, 2]
    (by decide)).1

/-- Claim C12: boundary.  For every frame in which both bytes of an accelerometer
component are 0, the decoded value of that component is exactly 0, whatever the other
bytes of the frame are. -/
theorem zero_bytes_decode_to_zero (b : Frame) :
    (b 0 = 0 → b 1 = 0 → (decode b).accelX = 0) ∧
    (b 2 = 0 → b 3 = 0 → (decode b).accelY = 0) ∧
    (b 4 = 0 → b 5 = 0 → (decode b).accelZ = 0) := by
  have hr : reassemble (0 : Byte) (0 : Byte) = 0 := by decide
  refine ⟨?_, ?_, ?_⟩ <;> intro h0 h1 <;>
    simp [decode, rawValues, h0, h1, hr, normalize_zero]

/-- Witness for C12: one frame per component, that component zero and every other byte
non-zero. -/
theorem zero_bytes_decode_to_zero_witness :
    (decode ![0, 0, 1, 2, 3, 4, 5, 6, 7, 8, 9, 10, 11, 12]).accelX = 0 ∧
    (decode ![1, 2, 0, 0, 3, 4, 5, 6, 7, 8, 9, 10, 11, 12]).accelY = 0 ∧
    (decode ![1, 2, 3, 4, 0, 0, 5, 6, 7, 8, 9, 10, 11, 12]).accelZ = 0 :=
  ⟨(zero_bytes_decode_to_zero ![0, 0, 1, 2, 3, 4, 5, 6, 7, 8, 9, 10, 11, 12]).1
      (by decide) (by decide),
   (zero_bytes_decode_to_zero ![1, 2, 0, 0, 3, 4, 5, 6, 7, 8, 9, 10, 11, 12]).2.1
      (by decide) (by decide),
   (zero_bytes_decode_to_zero ![1, 2, 3, 4, 0, 0, 5, 6, 7, 8, 9, 10, 11, 12]).2.2
      (by decide) (by decide)⟩

theorem roundBinary32_max : roundBinary32 (32767 / 16383) = 32769 / 16384 := by
  rw [roundBinary32_eq (32767 / 16383) 1 8388864 (by norm_num) (by norm_num)
    (by rw [abs_of_pos (by norm_num)]; norm_num)
    (by rw [abs_of_pos (by norm_num)]; norm_num)
    (by norm_num [abs_lt])]
  norm_num

theorem roundBinary32_min : roundBinary32 (-32768 / 16383) = -16385 / 8192 := by
  rw [roundBinary32_eq (-32768 / 16383) 1 (-8389120) (by norm_num) (by norm_num)
    (by rw [abs_of_neg (by norm_num)]; norm_num)
    (by rw [abs_of_neg (by norm_num)]; norm_num)
    (by norm_num [abs_lt])]
  norm_num

theorem decode_range (b : Frame) :
    ((-16385 : ℚ) / 8192 ≤ (decode b).accelX ∧ (decode b).accelX ≤ (32769 : ℚ) / 16384) ∧
    ((-16385 : ℚ) / 8192 ≤ (decode b).accelY ∧ (decode b).accelY ≤ (32769 : ℚ) / 16384) ∧
    ((-16385 : ℚ) / 8192 ≤ (decode b).accelZ ∧ (decode b).accelZ ≤ (32769 : ℚ) / 16384) := by
  obtain ⟨hx, hy, hz⟩ := decode_eq_round b
  rw [hx, hy, hz]
  exact ⟨roundBinary32_range _ (reassemble_range _ _).1 (reassemble_range _ _).2,
    roundBinary32_range _ (reassemble_range _ _).1 (reassemble_range _ _).2,
    roundBinary32_range _ (reassemble_range _ _).1 (reassemble_range _ _).2⟩

theorem decode_min_frame :
    decode ![0x80, 0x00, 0x80, 0x00, 0x80, 0x00, 0, 0, 0, 0, 0, 0, 0, 0] =
      { accelX := (-16385 : ℚ) / 8192, accelY := (-16385 : ℚ) / 8192,
        accelZ := (-16385 : ℚ) / 8192 } := by
  have hlo : rawValues ![0x80, 0x00, 0x80, 0x00, 0x80, 0x00, 0, 0, 0, 0, 0, 0, 0, 0] =
      { AccelerationRawX := -32768, AccelerationRawY := -32768, AccelerationRawZ := -32768,
        GyroRawX := 0, GyroRawY := 0, GyroRawZ := 0 } := by decide
  have hn : normalize (-32768) = -16385 / 8192 := by
    rw [normalize_eq_round (-32768) (by norm_num) (by norm_num),
      show (((-32768 : Int) : ℚ) / 16383) = -32768 / 16383 by norm_num]
    exact roundBinary32_min
  simp only [decode, hlo, hn]

theorem decode_max_frame :
    decode ![0x7F, 0xFF, 0x7F, 0xFF, 0x7F, 0xFF, 0, 0, 0, 0, 0, 0, 0, 0] =
      { accelX := (32769 : ℚ) / 16384, accelY := (32769 : ℚ) / 16384,
        accelZ := (32769 : ℚ) / 16384 } := by
  have hhi : rawValues ![0x7F, 0xFF, 0x7F, 0xFF, 0x7F, 0xFF, 0, 0, 0, 0, 0, 0, 0, 0] =
      { AccelerationRawX := 32767, AccelerationRawY := 32767, AccelerationRawZ := 32767,
        GyroRawX := 0, GyroRawY := 0, GyroRawZ := 0 } := by decide
  have hn : normalize 32767 = 32769 / 16384 := by
    rw [normalize_eq_round 32767 (by norm_num) (by norm_num),
      show (((32767 : Int) : ℚ) / 16383) = 32767 / 16383 by norm_num]
    exact roundBinary32_max
  simp only [decode, hhi, hn]

/-- Counterexample to C13 as stated: the bounds `-32768/16383` and `32767/16383` are not
attained.  The frame with every accelerometer pair `80 00` decodes to `-16385/8192` and
the one with every pair `7F FF` to `32769/16384` in each component, and no frame decodes
to `-32768/16383` or to `32767/16383` in any component. -/
theorem exact_quotient_bounds_not_attained :
    decode ![0x80, 0x00, 0x80, 0x00, 0x80, 0x00, 0, 0, 0, 0, 0, 0, 0, 0] =
      { accelX := (-16385 : ℚ) / 8192, accelY := (-16385 : ℚ) / 8192,
        accelZ := (-16385 : ℚ) / 8192 } ∧
    decode ![0x7F, 0xFF, 0x7F, 0xFF, 0x7F, 0xFF, 0, 0, 0, 0, 0, 0, 0, 0] =
      { accelX := (32769 : ℚ) / 16384, accelY := (32769 : ℚ) / 16384,
        accelZ := (32769 : ℚ) / 16384 } ∧
    (¬ ∃ b : Frame, (decode b).accelX = (-32768 : ℚ) / 16383 ∨
        (decode b).accelY = (-32768 : ℚ) / 16383 ∨ (decode b).accelZ = (-32768 : ℚ) / 16383) ∧
    (¬ ∃ b : Frame, (decode b).accelX = (32767 : ℚ) / 16383 ∨
        (decode b).accelY = (32767 : ℚ) / 16383 ∨ (decode b).accelZ = (32767 : ℚ) / 16383) := by
  refine ⟨decode_min_frame, decode_max_frame, ?_, ?_⟩
  · rintro ⟨b, h⟩
    obtain ⟨⟨hx, _⟩, ⟨hy, _⟩, ⟨hz, _⟩⟩ := decode_range b
    rcases h with h | h | h
    · rw [h] at hx; norm_num at hx
    · rw [h] at hy; norm_num at hy
    · rw [h] at hz; norm_num at hz
  · rintro ⟨b, h⟩
    obtain ⟨⟨_, hx⟩, ⟨_, hy⟩, ⟨_, hz⟩⟩ := decode_range b
    rcases h with h | h | h
    · rw [h] at hx; norm_num at hx
    · rw [h] at hy; norm_num at hy
    · rw [h] at hz; norm_num at hz

/-- Claim C13, amended: no clamping.  A successful tick stores the decoded sample, the
`float` quotients of the raw components by 16383, as it is; for every frame each decoded
component lies in `[-16385/8192, 32769/16384]`, strictly inside
`[-32768/16383, 32767/16383]`; the frame with every accelerometer pair `80 00` attains the
lower bound `-16385/8192` and the one with every pair `7F FF` the upper bound
`32769/16384` in all three components; and for the latter the decoded `accelX` is
strictly greater than 1.0. -/
theorem decoded_range_without_clamping :
    (∀ (s : Game) (dev : I2cDevice) (b : Frame), ∃ s1 : Game,
      Game.TimerElapsed { s with m_I2cMPU6050Device := some dev } (.ok b) = .ok s1 ∧
      s1.m_AccelData = decode b ∧
      s1.m_AccelData.accelX = roundBinary32 (((rawValues b).AccelerationRawX : ℚ) / 16383) ∧
      s1.m_AccelData.accelY = roundBinary32 (((rawValues b).AccelerationRawY : ℚ) / 16383) ∧
      s1.m_AccelData.accelZ = roundBinary32 (((rawValues b).AccelerationRawZ : ℚ) / 16383)) ∧
    (∀ b : Frame,
      ((-16385 : ℚ) / 8192 ≤ (decode b).accelX ∧ (decode b).accelX ≤ (32769 : ℚ) / 16384) ∧
      ((-16385 : ℚ) / 8192 ≤ (decode b).accelY ∧ (decode b).accelY ≤ (32769 : ℚ) / 16384) ∧
      ((-16385 : ℚ) / 8192 ≤ (decode b).accelZ ∧ (decode b).accelZ ≤ (32769 : ℚ) / 16384)) ∧
    (∀ b : Frame,
      ((-32768 : ℚ) / 16383 < (decode b).accelX ∧ (decode b).accelX < (32767 : ℚ) / 16383) ∧
      ((-32768 : ℚ) / 16383 < (decode b).accelY ∧ (decode b).accelY < (32767 : ℚ) / 16383) ∧
      ((-32768 : ℚ) / 16383 < (decode b).accelZ ∧ (decode b).accelZ < (32767 : ℚ) / 16383)) ∧
    decode ![0x80, 0x00, 0x80, 0x00, 0x80, 0x00, 0, 0, 0, 0, 0, 0, 0, 0] =
      { accelX := (-16385 : ℚ) / 8192, accelY := (-16385 : ℚ) / 8192,
        accelZ := (-16385 : ℚ) / 8192 } ∧
    decode ![0x7F, 0xFF, 0x7F, 0xFF, 0x7F, 0xFF, 0, 0, 0, 0, 0, 0, 0, 0] =
      { accelX := (32769 : ℚ) / 16384, accelY := (32769 : ℚ) / 16384,
        accelZ := (32769 : ℚ) / 16384 } ∧
    1 < (decode ![0x7F, 0xFF, 0x7F, 0xFF, 0x7F, 0xFF, 0, 0, 0, 0, 0, 0, 0, 0]).accelX := by
  refine ⟨?_, decode_range, ?_, decode_min_frame, decode_max_frame, ?_⟩
  · intro s dev b
    exact ⟨_, TimerElapsed_ok _ dev b rfl, rfl, decode_eq_round b⟩
  · intro b
    obtain ⟨⟨x1, x2⟩, ⟨y1, y2⟩, ⟨z1, z2⟩⟩ := decode_range b
    have hlo : (-32768 : ℚ) / 16383 < (-16385 : ℚ) / 8192 := by norm_num
    have hhi : (32769 : ℚ) / 16384 < (32767 : ℚ) / 16383 := by norm_num
    exact ⟨⟨lt_of_lt_of_le hlo x1, lt_of_le_of_lt x2 hhi⟩,
      ⟨lt_of_lt_of_le hlo y1, lt_of_le_of_lt y2 hhi⟩,
      ⟨lt_of_lt_of_le hlo z1, lt_of_le_of_lt z2 hhi⟩⟩
  · rw [decode_max_frame]
    norm_num

/-! ## The writer and the reader together -/

theorem interleave_tick_alone (s : Game) (dev : I2cDevice) (b : Frame)
    (h : s.m_I2cMPU6050Device = some dev) :
    Game.TimerElapsed s (.ok b) =
      .ok (interleave [.timer, .timer, .timer, .timer] s (tickStores (decode b)) []) := by
  rw [TimerElapsed_ok s dev b h]
  rfl

theorem interleave_update_alone (s : Game) (elapsedTime : ℚ) :
    Game.Update s elapsedTime = interleave [.render, .render, .render] s [] updateStatements :=
  rfl

theorem step_sample (s : Game) (e : Event) :
    ∃ s1 : Game, Game.step s e = .ok s1 ∧
      (s1.m_AccelData = s.m_AccelData ∨
        ∃ b : Frame, e = .timerFired (.ok b) ∧ s1.m_AccelData = decode b) := by
  cases e with
  | update t => exact ⟨Game.Update s t, rfl, Or.inl rfl⟩
  | timerFired r =>
    cases ht : s.m_PeriodicTimer with
    | none => exact ⟨s, by simp [Game.step, ht, pure, Except.pure], Or.inl rfl⟩
    | some tmr =>
      have hstep : Game.step s (.timerFired r) = Game.TimerElapsed s r := by
        simp [Game.step, ht]
      cases r with
      | error e => exact ⟨s, by rw [hstep, TimerElapsed_error], Or.inl rfl⟩
      | ok b =>
        cases hd : s.m_I2cMPU6050Device with
        | none => exact ⟨s, by rw [hstep, TimerElapsed_null s _ hd], Or.inl rfl⟩
        | some dev =>
          exact ⟨_, by rw [hstep, TimerElapsed_ok s dev b hd], Or.inr ⟨b, rfl, rfl⟩⟩

theorem run_sample (events : List Event) :
    ∀ s : Game, ∃ sN : Game, Game.run s events = .ok sN ∧
      (sN.m_AccelData = s.m_AccelData ∨
        ∃ b : Frame, Event.timerFired (.ok b) ∈ events ∧ sN.m_AccelData = decode b) := by
  induction events with
  | nil => intro s; exact ⟨s, rfl, Or.inl rfl⟩
  | cons e es ih =>
    intro s
    obtain ⟨s1, hs1, h1⟩ := step_sample s e
    obtain ⟨sN, hsN, hN⟩ := ih s1
    refine ⟨sN, by simp [Game.run, hs1, hsN, bind, Except.bind], ?_⟩
    rcases hN with hN | ⟨b, hb, hN⟩
    · rcases h1 with h1 | ⟨b, hb, h1⟩
      · exact Or.inl (hN.trans h1)
      · exact Or.inr ⟨b, by simp [hb], hN.trans h1⟩
    · exact Or.inr ⟨b, List.mem_cons_of_mem _ hb, hN⟩

theorem decode_frameAllOneG :
    decode frameAllOneG = { accelX := 1, accelY := 1, accelZ := 1 } := by
  have hr : rawValues frameAllOneG =
      { AccelerationRawX := 16383, AccelerationRawY := 16383, AccelerationRawZ := 16383,
        GyroRawX := 0, GyroRawY := 0, GyroRawZ := 0 } := by decide
  simp only [decode, hr, normalize_16383]

/-- Counterexample to C14 as stated: the tick has read the frame `3F FF 3F FF 3F FF ..`
(decode `(1, 1, 1)`) over the initial sample `(0, 0, 0)`, and `Update` runs between the
store of accelX and the store of accelY.  At that moment the stored sample is `(1, 0, 0)`:
accelX from the newest decode, the other two stale.  `Update` reads roll from the stale
accelY and pitch from the new accelX, which is neither the initial sample nor the complete
decode; the tick then completes as usual. -/
theorem update_between_stores_reads_torn_sample :
    (interleave [.timer] pollingState (tickStores (decode frameAllOneG))
        updateStatements).m_AccelData
      = { accelX := (decode frameAllOneG).accelX,
          accelY := pollingState.m_AccelData.accelY,
          accelZ := pollingState.m_AccelData.accelZ } ∧
    (interleave updateBetweenStores pollingState (tickStores (decode frameAllOneG))
        updateStatements).m_AngleRoll = pollingState.m_AccelData.accelY ∧
    (interleave updateBetweenStores pollingState (tickStores (decode frameAllOneG))
        updateStatements).m_AnglePitch = -(decode frameAllOneG).accelX ∧
    ¬ ((interleave updateBetweenStores pollingState (tickStores (decode frameAllOneG))
          updateStatements).m_AngleRoll = pollingState.m_AccelData.accelY ∧
       (interleave updateBetweenStores pollingState (tickStores (decode frameAllOneG))
          updateStatements).m_AnglePitch = -pollingState.m_AccelData.accelX) ∧
    ¬ ((interleave updateBetweenStores pollingState (tickStores (decode frameAllOneG))
          updateStatements).m_AngleRoll = (decode frameAllOneG).accelY ∧
       (interleave updateBetweenStores pollingState (tickStores (decode frameAllOneG))
          updateStatements).m_AnglePitch = -(decode frameAllOneG).accelX) ∧
    (interleave updateBetweenStores pollingState (tickStores (decode frameAllOneG))
        updateStatements).m_AccelData = decode frameAllOneG ∧
    (interleave updateBetweenStores pollingState (tickStores (decode frameAllOneG))
        updateStatements).m_AccelerometerReads = 1 := by
  rw [decode_frameAllOneG]
  simp [interleave, updateBetweenStores, tickStores, updateStatements, pollingState, Game.ctor]

/-- Claim C14, amended: ticks and `Update` calls executed one after another, as whole
units in any order.  Running the stores of a tick without interruption is the tick, and
running the statements of `Update` without interruption is `Update`; from the constructed
state every such run completes, the stored sample is then either the initial one or the
complete decode of a frame that one of the ticks read, and `Update` takes roll and pitch
from that one sample. -/
theorem whole_ticks_and_updates_never_tear (dev : Option I2cDevice)
    (tmr : Option ThreadPoolTimer) (events : List Event) :
    (∀ (s : Game) (d : I2cDevice) (b : Frame),
      Game.TimerElapsed { s with m_I2cMPU6050Device := some d } (.ok b) =
        .ok (interleave [.timer, .timer, .timer, .timer]
          { s with m_I2cMPU6050Device := some d } (tickStores (decode b)) [])) ∧
    (∀ (s : Game) (t : ℚ),
      Game.Update s t = interleave [.render, .render, .render] s [] updateStatements) ∧
    ∃ sN : Game,
      Game.run { Game.ctor with m_I2cMPU6050Device := dev, m_PeriodicTimer := tmr } events
        = .ok sN ∧
      (sN.m_AccelData = Game.ctor.m_AccelData ∨
        ∃ b : Frame, Event.timerFired (.ok b) ∈ events ∧ sN.m_AccelData = decode b) ∧
      ∀ t : ℚ, ∃ sample : AccelData,
        (sample = Game.ctor.m_AccelData ∨
          ∃ b : Frame, Event.timerFired (.ok b) ∈ events ∧ sample = decode b) ∧
        (Game.Update sN t).m_AngleRoll = sample.accelY ∧
        (Game.Update sN t).m_AnglePitch = -sample.accelX := by
  refine ⟨fun s d b => interleave_tick_alone _ d b rfl, interleave_update_alone, ?_⟩
  obtain ⟨sN, hrun, hN⟩ := run_sample events
    { Game.ctor with m_I2cMPU6050Device := dev, m_PeriodicTimer := tmr }
  refine ⟨sN, hrun, hN, ?_⟩
  intro t
  exact ⟨sN.m_AccelData, hN, rfl, rfl⟩

end MPU6050
